import Mathlib

/-!
Verification of the Pull replication worker (`Puller`) of couchbase-lite-core.

The definitions below are a shallow embedding of `src/Replicator/Puller.cc`.
Remote sequences are modelled as `Nat` (the code treats them as opaque values
with a total order supplied by the remote; only equality and the order are
used here).  The `RemoteSequenceSet` ("missing sequence set") and the tuning
constants live in sibling files that are not part of the provided sources, so
the set is modelled from the specification and the caps are parameters of the
configuration.
-/

namespace Puller

/-- Modelled from the spec: one `(seq, bodySize)` member of the
missing-sequence set (spec section 4.2); the set is not in the provided
sources.  `pending = true` means the sequence was added and not yet removed;
removed entries are kept until the contiguous removed prefix is collapsed
into the base watermark. -/
structure MSEntry where
  seq : Nat
  bodySize : Nat
  pending : Bool
deriving Repr, DecidableEq

/-- Modelled from the spec: the missing-sequence set (spec sections 3 and
4.2), an ordered container of sequences with a base watermark.  Invariant
(proved below for all reachable states): entries are sorted strictly
ascending and every entry's sequence is greater than `base`. -/
structure MissingSequenceSet where
  base : Nat
  entries : List MSEntry
deriving Repr, DecidableEq

namespace MissingSequenceSet

/-- Modelled from the spec: `clear(since)` empties the set and resets the
watermark. -/
def clear (b : Nat) : MissingSequenceSet := ⟨b, []⟩

/-- Insert an entry into a sorted entry list, keeping it sorted by `seq`. -/
def insertEntry (e : MSEntry) : List MSEntry → List MSEntry
  | [] => [e]
  | f :: rest => if e.seq < f.seq then e :: f :: rest else f :: insertEntry e rest

/-- Whether some entry (pending or removed) carries sequence `s`. -/
def containsSeq (s : Nat) (l : List MSEntry) : Bool :=
  l.any (fun e => e.seq == s)

/-- Modelled from the spec: `add(seq, bodySize)` is idempotent for a
sequence already present, and members are kept strictly greater than the
base watermark. -/
def add (m : MissingSequenceSet) (s bodySize : Nat) : MissingSequenceSet :=
  if s ≤ m.base ∨ containsSeq s m.entries then m
  else ⟨m.base, insertEntry ⟨s, bodySize, true⟩ m.entries⟩

/-- Mark the first entry carrying sequence `s` as removed (not pending). -/
def markRemoved (s : Nat) : List MSEntry → List MSEntry
  | [] => []
  | e :: rest =>
    if e.seq == s then { e with pending := false } :: rest
    else e :: markRemoved s rest

/-- Collapse the removed prefix of the entry list into the watermark:
the watermark advances to the greatest contiguously removed sequence. -/
def collapse : Nat → List MSEntry → Nat × List MSEntry
  | b, [] => (b, [])
  | b, e :: rest => if e.pending then (b, e :: rest) else collapse e.seq rest

/-- First (least, thanks to sortedness) pending entry, if any. -/
def findPending (s : Nat) (l : List MSEntry) : Option MSEntry :=
  l.find? (fun e => e.seq == s && e.pending)

/-- The least pending sequence, if any (the list is kept sorted). -/
def minPending (l : List MSEntry) : Option Nat :=
  ((l.filter (fun e => e.pending)).head?).map (fun e => e.seq)

/-- Modelled from the spec: `remove(seq)` reports whether the sequence was
the earliest member and its recorded body size; removing an absent sequence
is a no-op.  When the earliest member is removed the watermark advances past
the contiguous removed prefix. -/
def remove (m : MissingSequenceSet) (s : Nat) : MissingSequenceSet × Bool × Nat :=
  match findPending s m.entries with
  | none => (m, false, 0)
  | some e =>
    let wasEarliest := minPending m.entries == some s
    let entries' := markRemoved s m.entries
    if wasEarliest then
      let c := collapse m.base entries'
      (⟨c.1, c.2⟩, true, e.bodySize)
    else
      (⟨m.base, entries'⟩, false, e.bodySize)

/-- Modelled from the spec: body size recorded for a member sequence, 0 if
absent. -/
def bodySizeOfSequence (m : MissingSequenceSet) (s : Nat) : Nat :=
  match findPending s m.entries with
  | none => 0
  | some e => e.bodySize

/-- Number of pending members. -/
def size (m : MissingSequenceSet) : Nat :=
  (m.entries.filter (fun e => e.pending)).length

/-- Modelled from the spec: `since()` is the low-water mark: the greatest
sequence below which every sequence ever added has been removed.  With the
collapsed representation this is exactly the base watermark. -/
def since (m : MissingSequenceSet) : Nat := m.base

/-- The pending member sequences, in ascending order. -/
def pendingSeqs (m : MissingSequenceSet) : List Nat :=
  (m.entries.filter (fun e => e.pending)).map (fun e => e.seq)

/-- Well-formedness: entries sorted strictly ascending, all above the base. -/
def WF (m : MissingSequenceSet) : Prop :=
  m.entries.Pairwise (fun a b => a.seq < b.seq) ∧ ∀ e ∈ m.entries, m.base < e.seq

end MissingSequenceSet

/-- Tuning caps and options fixed at construction.  The cap values live in
`ReplicatorTuning.hh`, which is not part of the provided sources, so they are
parameters here.  `nonPassive` is true for an active (client-initiated)
pull. -/
structure Config where
  maxPendingRevs : Nat
  maxActiveIncomingRevs : Nat
  maxUnfinishedIncomingRevs : Nat
  nonPassive : Bool
  noIncomingConflicts : Bool
  continuous : Bool
deriving Repr, DecidableEq

/-- One entry of a `changes`/`proposeChanges` body:
`[seq, docID, revID, flags, bodySize]`.  `seq = none` models an
empty/invalid sequence value (`change[0]`). -/
structure ChangeEntry where
  seq : Option Nat
  docID : String
  revID : String
  flags : Nat
  bodySize : Nat
deriving Repr, DecidableEq

/-- Parse result of a `changes` body.  `nonArray isLiteralNull` models
`JSONBody().asArray()` being null; `isLiteralNull` records whether the raw
body is exactly the string "null" (in which case the null array is empty and
the caught-up branch is taken, matching `req->body() != "null"_sl`). -/
inductive ChangesBody
  | nonArray (isLiteralNull : Bool)
  | array (entries : List ChangeEntry)
deriving Repr, DecidableEq

/-- An incoming `changes` or `proposeChanges` message. -/
structure ChangesMsg where
  proposed : Bool
  noReply : Bool
  body : ChangesBody
deriving Repr, DecidableEq

/-- An incoming `rev` message (its payload is handled by the IncomingRev
worker, outside the Puller's own state). -/
structure RevMsg where
  docID : String
deriving Repr, DecidableEq

/-- An incoming `norev` message with properties `id` and `sequence`. -/
structure NoRevMsg where
  docID : String
  sequence : Option Nat
  noReply : Bool
deriving Repr, DecidableEq

/-- The data of a finished IncomingRev as consumed by `_revsFinished`. -/
structure FinishedRev where
  docID : String
  remoteSequence : Option Nat
  wasProvisionallyInserted : Bool
  errorIsTransient : Bool
deriving Repr, DecidableEq

/-- Observable effects of one handler invocation (message replies). -/
inductive Output
  | replyEmpty
  | replyError (code : Nat) (message : String)
deriving Repr, DecidableEq

/-- The Puller's mutable state, as owned by its single-threaded mailbox. -/
structure PState where
  lastSequence : Nat
  missingSequences : MissingSequenceSet
  caughtUp : Bool
  skipDeleted : Bool
  fatalError : Bool
  pendingRevMessages : Nat
  activeIncomingRevs : Nat
  unfinishedIncomingRevs : Nat
  pendingRevFinderCalls : Nat
  waitingChangesMessages : List ChangesMsg
  waitingRevMessages : List RevMsg
  revFinderQueue : List (List ChangeEntry)
  incomingDocIDs : List String
  progressCompleted : Nat
  progressTotal : Nat
  spareIncomingRevs : Nat
deriving Repr, DecidableEq

/-- `Puller::updateLastSequence`: refresh the cached checkpoint from the
missing set's low-water mark. -/
def updateLastSequence (st : PState) : PState :=
  if st.missingSequences.since ≠ st.lastSequence then
    { st with lastSequence := st.missingSequences.since }
  else st

/-- `Puller::completedSequence`: record that a sequence was pulled.  A null
sequence slice (modelled as `none`) is absent from the set, so the call is a
no-op on the state (lookup and removal find nothing, progress grows by 0). -/
def completedSequence (st : PState) (seq : Option Nat)
    (withTransientError shouldUpdateLastSequence : Bool) : PState :=
  match seq with
  | none => st
  | some q =>
    if withTransientError then
      { st with progressCompleted :=
          st.progressCompleted + st.missingSequences.bodySizeOfSequence q }
    else
      let r := st.missingSequences.remove q
      let st1 := { st with missingSequences := r.1 }
      let st2 := if r.2.1 && shouldUpdateLastSequence then updateLastSequence st1 else st1
      { st2 with progressCompleted := st2.progressCompleted + r.2.2 }

/-- `Puller::handleChangesNow`: actually handle one `changes` message,
returning the new state and the replies sent. -/
def handleChangesNow (cfg : Config) (st : PState) (m : ChangesMsg) :
    PState × List Output :=
  match m.body with
  | .nonArray isLiteralNull =>
    if isLiteralNull then
      ({ st with caughtUp := true, skipDeleted := false }, [.replyEmpty])
    else
      (st, [.replyError 400 "Invalid JSON body"])
  | .array [] =>
    ({ st with caughtUp := true, skipDeleted := false }, [.replyEmpty])
  | .array (c :: cs) =>
    if m.noReply then
      (st, [])
    else if cfg.noIncomingConflicts && !m.proposed then
      (st, [.replyError 409 ""])
    else
      ({ st with pendingRevFinderCalls := st.pendingRevFinderCalls + 1,
                 revFinderQueue := st.revFinderQueue ++ [c :: cs] }, [])

/-- Drain loop of `Puller::handleMoreChanges`, recursing on the queue.  The
queue argument is the waiting-changes queue of the state; the state's own
queue field is overwritten with what remains when the drain stops. -/
def handleMoreChangesAux (cfg : Config) :
    List ChangesMsg → PState → PState × List Output
  | [], st => ({ st with waitingChangesMessages := [] }, [])
  | m :: rest, st =>
    if st.pendingRevMessages < cfg.maxPendingRevs then
      let p1 := handleChangesNow cfg st m
      let p2 := handleMoreChangesAux cfg rest p1.1
      (p2.1, p1.2 ++ p2.2)
    else
      ({ st with waitingChangesMessages := m :: rest }, [])

/-- `Puller::handleMoreChanges`: process waiting `changes` messages while
not throttled by `maxPendingRevs`. -/
def handleMoreChanges (cfg : Config) (st : PState) : PState × List Output :=
  handleMoreChangesAux cfg st.waitingChangesMessages st

/-- `Puller::startIncomingRev`: dispatch a `rev` message to an IncomingRev
worker (popping the spare pool if non-empty), then pump the changes queue. -/
def startIncomingRev (cfg : Config) (st : PState) : PState × List Output :=
  handleMoreChanges cfg
    { st with pendingRevMessages := st.pendingRevMessages - 1,
              activeIncomingRevs := st.activeIncomingRevs + 1,
              unfinishedIncomingRevs := st.unfinishedIncomingRevs + 1,
              spareIncomingRevs := st.spareIncomingRevs - 1 }

/-- `Puller::handleRev`: start the rev immediately if below both caps, else
enqueue it. -/
def handleRevOp (cfg : Config) (st : PState) (m : RevMsg) : PState × List Output :=
  if st.activeIncomingRevs < cfg.maxActiveIncomingRevs
      && st.unfinishedIncomingRevs < cfg.maxUnfinishedIncomingRevs then
    startIncomingRev cfg st
  else
    ({ st with waitingRevMessages := st.waitingRevMessages ++ [m] }, [])

/-- `Puller::handleChanges`: enqueue the message and pump. -/
def handleChangesOp (cfg : Config) (st : PState) (m : ChangesMsg) :
    PState × List Output :=
  handleMoreChanges cfg
    { st with waitingChangesMessages := st.waitingChangesMessages ++ [m] }

/-- State change of `Puller::handleNoRev` before the pump and the reply. -/
def noRevCore (st : PState) (m : NoRevMsg) : PState :=
  completedSequence
    { st with incomingDocIDs := st.incomingDocIDs.erase m.docID,
              pendingRevMessages := st.pendingRevMessages - 1 }
    m.sequence false true

/-- `Puller::handleNoRev`: remove the docID, complete the sequence, pump the
changes queue, and reply (empty) unless the message is no-reply. -/
def handleNoRevOp (cfg : Config) (st : PState) (m : NoRevMsg) :
    PState × List Output :=
  let p := handleMoreChanges cfg (noRevCore st m)
  (p.1, p.2 ++ if m.noReply then [] else [.replyEmpty])

/-- `Puller::_revWasProvisionallyHandled`: decrement the active count and,
if below both caps and a `rev` message is waiting, start it and pump. -/
def revWasProvisionallyHandled (cfg : Config) (st : PState) : PState × List Output :=
  let st1 := { st with activeIncomingRevs := st.activeIncomingRevs - 1 }
  if st1.activeIncomingRevs < cfg.maxActiveIncomingRevs
      && st1.unfinishedIncomingRevs < cfg.maxUnfinishedIncomingRevs then
    match st1.waitingRevMessages with
    | [] => (st1, [])
    | _ :: rest =>
      let p1 := startIncomingRev cfg { st1 with waitingRevMessages := rest }
      let p2 := handleMoreChanges cfg p1.1
      (p2.1, p1.2 ++ p2.2)
  else (st1, [])

/-- Per-rev body of the `Puller::_revsFinished` loop (including the docID
removal done by `Puller::revWasHandled` when the worker returned itself). -/
def finishOne (cfg : Config) (st : PState) (inc : FinishedRev) : PState :=
  let st1 := if inc.wasProvisionallyInserted then st
             else (revWasProvisionallyHandled cfg st).1
  let st2 := { st1 with incomingDocIDs := st1.incomingDocIDs.erase inc.docID }
  if cfg.nonPassive then
    completedSequence st2 inc.remoteSequence inc.errorIsTransient false
  else st2

/-- `Puller::_revsFinished`: drain a batch of finished IncomingRevs, then
refresh the checkpoint and refill the spare pool up to the active cap. -/
def revsFinishedOp (cfg : Config) (st : PState) (batch : List FinishedRev) :
    PState × List Output :=
  let st1 := batch.foldl (finishOne cfg) st
  let st2 := { st1 with unfinishedIncomingRevs :=
      st1.unfinishedIncomingRevs - batch.length }
  let st3 := if cfg.nonPassive then updateLastSequence st2 else st2
  let refill := min (cfg.maxActiveIncomingRevs - st3.spareIncomingRevs) batch.length
  ({ st3 with spareIncomingRevs := st3.spareIncomingRevs + refill }, [])

/-- Callback of `RevFinder::findOrRequestRevs` for one change entry, given
the finder's decision `requesting`.  For active pulls the sequence is added
to the missing set (with body size `max(bodySize,1)` when requested, else 0)
and not-requested sequences are completed immediately; every requested entry
increments `pendingRevMessages` and its docID was added to the shared
incoming-docID set by the RevFinder. -/
def processChange (cfg : Config) (st : PState) (p : Bool × ChangeEntry) : PState :=
  let requesting := p.1
  let c := p.2
  let st1 :=
    if cfg.nonPassive then
      let bodySize := if requesting then max c.bodySize 1 else 0
      let stA := match c.seq with
        | some q => { st with missingSequences := st.missingSequences.add q bodySize }
        | none => st
      let stB := { stA with progressTotal := stA.progressTotal + bodySize }
      if requesting then stB else completedSequence stB c.seq false true
    else st
  if requesting then
    { st1 with pendingRevMessages := st1.pendingRevMessages + 1,
               incomingDocIDs := st1.incomingDocIDs ++ [c.docID] }
  else st1

/-- Delivery of one RevFinder callback: pop the oldest outstanding call and
run the callback body over the decision vector zipped with its entries. -/
def revFinderCbOp (cfg : Config) (st : PState) (which : List Bool) :
    PState × List Output :=
  match st.revFinderQueue with
  | [] => (st, [])
  | entries :: rest =>
    let st1 := { st with revFinderQueue := rest,
                         pendingRevFinderCalls := st.pendingRevFinderCalls - 1 }
    ((which.zip entries).foldl (processChange cfg) st1, [])

/-- The Puller operations delivered to its mailbox after `_start`: the four
registered message handlers and the two asynchronous completion channels. -/
inductive Op
  | changes (m : ChangesMsg)
  | revFinderCb (which : List Bool)
  | rev (m : RevMsg)
  | noRev (m : NoRevMsg)
  | revProvisional
  | revsFinished (batch : List FinishedRev)
  | subChangesReplyError
deriving Repr, DecidableEq

/-- One mailbox task: apply an operation, producing the new state and the
replies sent. -/
def stepO (cfg : Config) (st : PState) : Op → PState × List Output
  | .changes m => handleChangesOp cfg st m
  | .revFinderCb which => revFinderCbOp cfg st which
  | .rev m => handleRevOp cfg st m
  | .noRev m => handleNoRevOp cfg st m
  | .revProvisional => revWasProvisionallyHandled cfg st
  | .revsFinished batch => revsFinishedOp cfg st batch
  | .subChangesReplyError => ({ st with fatalError := true }, [])

/-- State part of one mailbox task. -/
def stepP (cfg : Config) (st : PState) (op : Op) : PState :=
  (stepO cfg st op).1

/-- `Puller::_start(sinceSequence)`: the state right after starting an
active pull (checkpoint cache and missing set reset to `sinceSequence`). -/
def startState (skipDeleted : Bool) (sinceSequence : Nat) : PState where
  lastSequence := sinceSequence
  missingSequences := MissingSequenceSet.clear sinceSequence
  caughtUp := false
  skipDeleted := skipDeleted
  fatalError := false
  pendingRevMessages := 0
  activeIncomingRevs := 0
  unfinishedIncomingRevs := 0
  pendingRevFinderCalls := 0
  waitingChangesMessages := []
  waitingRevMessages := []
  revFinderQueue := []
  incomingDocIDs := []
  progressCompleted := 0
  progressTotal := 0
  spareIncomingRevs := 0

/-- Run a trace of operations from a state. -/
def run (cfg : Config) (st : PState) (ops : List Op) : PState :=
  ops.foldl (stepP cfg) st

/-- Run a trace from the post-`_start` state. -/
def runFrom (cfg : Config) (skipDeleted : Bool) (sinceSequence : Nat)
    (ops : List Op) : PState :=
  run cfg (startState skipDeleted sinceSequence) ops

/-- The activity levels reported by `computeActivityLevel`. -/
inductive ActivityLevel
  | stopped
  | idle
  | busy
deriving Repr, DecidableEq

/-- `Puller::computeActivityLevel`: pure function of the state plus the
transport connection, the base-class busy check, and the open-server
check. -/
def computeActivityLevel (cfg : Config) (st : PState)
    (connected baseBusy isOpenServer : Bool) : ActivityLevel :=
  if st.fatalError || !connected then .stopped
  else if baseBusy || (!st.caughtUp && cfg.nonPassive)
      || st.pendingRevMessages > 0
      || st.unfinishedIncomingRevs > 0
      || st.pendingRevFinderCalls > 0 then .busy
  else if cfg.continuous || isOpenServer then .idle
  else .stopped

/-- Replicator options read by `Puller::_start` when building the
`subChanges` request. -/
structure Options where
  continuous : Bool
  channels : Option (List String)
  filter : Option String
  filterParams : List (String × String)
  docIDs : Option (List String)
deriving Repr, DecidableEq

/-- The channel-joining loop of `Puller::_start`: empty names are skipped
and the remaining names are comma-separated. -/
def joinChannels (cs : List String) : String :=
  (cs.foldl
    (fun (acc : String × Bool) name =>
      if name = "" then acc
      else (acc.1 ++ (if acc.2 then "," else "") ++ name, true))
    ("", false)).1

/-- Properties of the outgoing `subChanges` request built by
`Puller::_start` (`batchSize` stands for the tuning constant
`kChangesBatchSize`, whose definition is outside the provided sources). -/
def buildSubChanges (opts : Options) (skipDeleted : Bool) (lastSequence : String)
    (batchSize : Nat) : List (String × String) :=
  (if lastSequence ≠ "" then [("since", lastSequence)] else [])
  ++ (if opts.continuous then [("continuous", "true")] else [])
  ++ [("batch", toString batchSize)]
  ++ (if skipDeleted then [("activeOnly", "true")] else [])
  ++ (match opts.channels with
      | some chs => [("filter", "sync_gateway/bychannel"), ("channels", joinChannels chs)]
      | none =>
        match opts.filter with
        | some f => ("filter", f) :: opts.filterParams
        | none => [])

/-- Agreement of the state components not touched by the changes-message
drain loop: the drain only reads `pendingRevMessages` and rewrites the
waiting-changes queue, the caught-up flags and the RevFinder plumbing. -/
def CoreEq (s t : PState) : Prop :=
  t.missingSequences = s.missingSequences ∧
  t.lastSequence = s.lastSequence ∧
  t.pendingRevMessages = s.pendingRevMessages ∧
  t.activeIncomingRevs = s.activeIncomingRevs ∧
  t.unfinishedIncomingRevs = s.unfinishedIncomingRevs ∧
  t.waitingRevMessages = s.waitingRevMessages ∧
  t.incomingDocIDs = s.incomingDocIDs

/-- The inductive invariant of the Puller's reachable states: a well-formed
missing set whose base the cached checkpoint equals, counters within their
caps, and a non-empty waiting-changes queue only while throttled. -/
def Inv (cfg : Config) (st : PState) : Prop :=
  st.missingSequences.WF ∧
  st.lastSequence = st.missingSequences.base ∧
  st.activeIncomingRevs ≤ cfg.maxActiveIncomingRevs ∧
  st.unfinishedIncomingRevs ≤ cfg.maxUnfinishedIncomingRevs ∧
  (st.waitingChangesMessages ≠ [] → cfg.maxPendingRevs ≤ st.pendingRevMessages)

namespace MissingSequenceSet

theorem mem_insertEntry {x e : MSEntry} {l : List MSEntry} :
    x ∈ insertEntry e l ↔ x = e ∨ x ∈ l := by
  induction l with
  | nil => simp [insertEntry]
  | cons f rest ih =>
    unfold insertEntry
    by_cases h : e.seq < f.seq
    · simp only [h, if_true, List.mem_cons]
    · simp only [h, if_false, List.mem_cons, ih]
      tauto

theorem insertEntry_pairwise {e : MSEntry} {l : List MSEntry}
    (hs : l.Pairwise (fun a b => a.seq < b.seq))
    (hne : ∀ f ∈ l, e.seq ≠ f.seq) :
    (insertEntry e l).Pairwise (fun a b => a.seq < b.seq) := by
  induction l with
  | nil => simp [insertEntry]
  | cons f rest ih =>
    rw [List.pairwise_cons] at hs
    unfold insertEntry
    by_cases h : e.seq < f.seq
    · simp only [h, if_true]
      refine List.Pairwise.cons ?_ (List.Pairwise.cons hs.1 hs.2)
      intro x hx
      rcases List.mem_cons.1 hx with hx | hx
      · simpa [hx] using h
      · exact lt_trans h (hs.1 x hx)
    · have hlt : f.seq < e.seq :=
        lt_of_le_of_ne (le_of_not_lt h) (fun hq => hne f (by simp) hq.symm)
      simp only [h, if_false]
      refine List.Pairwise.cons ?_ (ih hs.2 (fun g hg => hne g (by simp [hg])))
      intro x hx
      rcases mem_insertEntry.1 hx with hx | hx
      · simpa [hx] using hlt
      · exact hs.1 x hx

theorem add_base (m : MissingSequenceSet) (s sz : Nat) :
    (m.add s sz).base = m.base := by
  unfold add
  split <;> rfl

theorem add_WF (m : MissingSequenceSet) (s sz : Nat) (h : m.WF) :
    (m.add s sz).WF := by
  unfold add
  split
  · exact h
  · next hcond =>
    push_neg at hcond
    obtain ⟨hbase, hcont⟩ := hcond
    have hne : ∀ f ∈ m.entries, s ≠ f.seq := by
      intro f hf hq
      have : containsSeq s m.entries = true := by
        unfold containsSeq
        exact List.any_eq_true.2 ⟨f, hf, by simp [hq]⟩
      simp [this] at hcont
    constructor
    · exact insertEntry_pairwise h.1 hne
    · intro e he
      rcases mem_insertEntry.1 he with he | he
      · simp [he]
        omega
      · exact h.2 e he

theorem markRemoved_map_seq (s : Nat) (l : List MSEntry) :
    (markRemoved s l).map (fun e => e.seq) = l.map (fun e => e.seq) := by
  induction l with
  | nil => rfl
  | cons f rest ih =>
    unfold markRemoved
    by_cases h : f.seq = s
    · simp [h]
    · simp [h, ih]

theorem markRemoved_pairwise {s : Nat} {l : List MSEntry}
    (h : l.Pairwise (fun a b => a.seq < b.seq)) :
    (markRemoved s l).Pairwise (fun a b => a.seq < b.seq) := by
  have h1 : (l.map (fun e => e.seq)).Pairwise (· < ·) := List.pairwise_map.2 h
  have h2 : ((markRemoved s l).map (fun e => e.seq)).Pairwise (· < ·) := by
    rw [markRemoved_map_seq]
    exact h1
  exact List.pairwise_map.1 h2

theorem markRemoved_bound {s b : Nat} {l : List MSEntry}
    (h : ∀ e ∈ l, b < e.seq) :
    ∀ e ∈ markRemoved s l, b < e.seq := by
  intro e he
  have : e.seq ∈ (markRemoved s l).map (fun e => e.seq) := List.mem_map_of_mem _ he
  rw [markRemoved_map_seq] at this
  obtain ⟨f, hf, hfe⟩ := List.mem_map.1 this
  rw [← hfe]
  exact h f hf

theorem collapse_spec :
    ∀ (l : List MSEntry) (b : Nat),
      l.Pairwise (fun a b => a.seq < b.seq) → (∀ e ∈ l, b < e.seq) →
      (collapse b l).2.Pairwise (fun a b => a.seq < b.seq)
      ∧ (∀ e ∈ (collapse b l).2, (collapse b l).1 < e.seq)
      ∧ b ≤ (collapse b l).1 := by
  intro l
  induction l with
  | nil =>
    intro b _ _
    exact ⟨List.Pairwise.nil, by simp [collapse], le_refl b⟩
  | cons f rest ih =>
    intro b hp hb
    rw [List.pairwise_cons] at hp
    unfold collapse
    by_cases h : f.pending = true
    · simp only [h, if_true]
      exact ⟨List.Pairwise.cons hp.1 hp.2, hb, le_refl b⟩
    · simp only [h]
      have hrec := ih f.seq hp.2 hp.1
      have hbf : b < f.seq := hb f (by simp)
      simp only [Bool.not_eq_true] at h
      simp only [h, Bool.false_eq_true, if_false]
      exact ⟨hrec.1, hrec.2.1, le_of_lt (lt_of_lt_of_le hbf hrec.2.2)⟩

theorem remove_WF_base (m : MissingSequenceSet) (s : Nat) (h : m.WF) :
    (m.remove s).1.WF ∧ m.base ≤ (m.remove s).1.base := by
  unfold remove
  cases hf : findPending s m.entries with
  | none => exact ⟨h, le_refl _⟩
  | some e =>
    simp only
    have hmk : (markRemoved s m.entries).Pairwise (fun a b => a.seq < b.seq) :=
      markRemoved_pairwise h.1
    have hmb : ∀ x ∈ markRemoved s m.entries, m.base < x.seq := markRemoved_bound h.2
    split
    · have hc := collapse_spec (markRemoved s m.entries) m.base hmk hmb
      exact ⟨⟨hc.1, hc.2.1⟩, hc.2.2⟩
    · exact ⟨⟨hmk, hmb⟩, le_refl _⟩

theorem markRemoved_pendingSeqs (s : Nat) :
    ∀ (l : List MSEntry), (l.map (fun e => e.seq)).Nodup →
      ∀ e ∈ l, e.seq = s → e.pending = true →
      ((markRemoved s l).filter (fun e => e.pending)).map (fun e => e.seq)
        = ((l.filter (fun e => e.pending)).map (fun e => e.seq)).erase s := by
  intro l
  induction l with
  | nil => intro _ e he; simp at he
  | cons f rest ih =>
    intro hnd e he hes hep
    rw [List.map_cons, List.nodup_cons] at hnd
    by_cases hfs : f.seq = s
    · have hef : e = f := by
        rcases List.mem_cons.1 he with h | h
        · exact h
        · exfalso
          apply hnd.1
          rw [hfs, ← hes]
          exact List.mem_map_of_mem _ h
      have hfp : f.pending = true := hef ▸ hep
      unfold markRemoved
      simp only [hfs, beq_self_eq_true, if_true]
      have hfilter : ({ f with pending := false } : MSEntry).pending = false := rfl
      rw [List.filter_cons, List.filter_cons]
      simp only [hfilter, hfp, Bool.false_eq_true, if_false, if_true, List.map_cons]
      rw [hfs, List.erase_cons_head]
    · have herest : e ∈ rest := by
        rcases List.mem_cons.1 he with h | h
        · exact absurd (h ▸ hes) hfs
        · exact h
      unfold markRemoved
      have hbeq : (f.seq == s) = false := by simp [hfs]
      simp only [hbeq, Bool.false_eq_true, if_false]
      rw [List.filter_cons, List.filter_cons]
      by_cases hfp : f.pending = true
      · simp only [hfp, if_true, List.map_cons]
        rw [ih hnd.2 e herest hes hep, List.erase_cons_tail]
        simp [hfs]
      · simp only [Bool.not_eq_true] at hfp
        simp only [hfp, Bool.false_eq_true, if_false]
        exact ih hnd.2 e herest hes hep

theorem collapse_pendingSeqs :
    ∀ (l : List MSEntry) (b : Nat),
      ((collapse b l).2.filter (fun e => e.pending)).map (fun e => e.seq)
        = (l.filter (fun e => e.pending)).map (fun e => e.seq) := by
  intro l
  induction l with
  | nil => intro b; rfl
  | cons f rest ih =>
    intro b
    unfold collapse
    by_cases h : f.pending = true
    · simp only [h, if_true]
    · simp only [Bool.not_eq_true] at h
      simp only [h, Bool.false_eq_true, if_false]
      rw [ih f.seq, List.filter_cons]
      simp [h]

theorem remove_pendingSeqs (m : MissingSequenceSet) (s : Nat) (h : m.WF) :
    (m.remove s).1.pendingSeqs = m.pendingSeqs.erase s := by
  have hnd : (m.entries.map (fun e => e.seq)).Nodup := by
    have := List.pairwise_map.2 h.1
    exact this.imp (fun hlt => Nat.ne_of_lt hlt)
  unfold remove
  cases hf : findPending s m.entries with
  | none =>
    have hnotmem : s ∉ m.pendingSeqs := by
      intro hmem
      unfold pendingSeqs at hmem
      obtain ⟨e, he, hes⟩ := List.mem_map.1 hmem
      have hee := List.mem_filter.1 he
      have hnone := List.find?_eq_none.1 hf e hee.1
      simp [hes, hee.2] at hnone
    exact (List.erase_of_not_mem hnotmem).symm
  | some e =>
    have hmem := List.mem_of_find?_eq_some hf
    have hprop := List.find?_some hf
    simp only [Bool.and_eq_true, beq_iff_eq] at hprop
    have hcore := markRemoved_pendingSeqs s m.entries hnd e hmem hprop.1 hprop.2
    unfold pendingSeqs
    by_cases hmin : (minPending m.entries == some s) = true
    · simp only [hmin, if_true]
      rw [collapse_pendingSeqs]
      exact hcore
    · simp only [hmin, Bool.false_eq_true, if_false]
      exact hcore

theorem remove_base_of_not_earliest (m : MissingSequenceSet) (s : Nat)
    (h : (m.remove s).2.1 = false) :
    (m.remove s).1.base = m.base := by
  unfold remove at *
  cases hf : findPending s m.entries with
  | none => rfl
  | some e =>
    simp only [hf] at h ⊢
    by_cases hmin : (minPending m.entries == some s) = true
    · simp [hmin] at h
    · simp [hmin]

end MissingSequenceSet

theorem coreEq_refl (s : PState) : CoreEq s s :=
  ⟨rfl, rfl, rfl, rfl, rfl, rfl, rfl⟩

theorem coreEq_trans {s t u : PState} (h1 : CoreEq s t) (h2 : CoreEq t u) :
    CoreEq s u := by
  obtain ⟨a1, b1, c1, d1, e1, f1, g1⟩ := h1
  obtain ⟨a2, b2, c2, d2, e2, f2, g2⟩ := h2
  exact ⟨a2.trans a1, b2.trans b1, c2.trans c1, d2.trans d1,
         e2.trans e1, f2.trans f1, g2.trans g1⟩

theorem handleChangesNow_coreEq (cfg : Config) (st : PState) (m : ChangesMsg) :
    CoreEq st (handleChangesNow cfg st m).1 := by
  rcases m with ⟨prop, nr, body⟩
  rcases body with lit | entries
  · cases lit <;> simp [handleChangesNow, CoreEq]
  · cases entries with
    | nil => simp [handleChangesNow, CoreEq]
    | cons c cs =>
      simp only [handleChangesNow]
      split
      · exact coreEq_refl st
      · split
        · exact coreEq_refl st
        · exact ⟨rfl, rfl, rfl, rfl, rfl, rfl, rfl⟩

theorem handleMoreChangesAux_spec (cfg : Config) :
    ∀ (q : List ChangesMsg) (st : PState),
      CoreEq st (handleMoreChangesAux cfg q st).1 ∧
      ((handleMoreChangesAux cfg q st).1.waitingChangesMessages ≠ [] →
        cfg.maxPendingRevs ≤ (handleMoreChangesAux cfg q st).1.pendingRevMessages) := by
  intro q
  induction q with
  | nil =>
    intro st
    refine ⟨⟨rfl, rfl, rfl, rfl, rfl, rfl, rfl⟩, ?_⟩
    intro h
    simp [handleMoreChangesAux] at h
  | cons m rest ih =>
    intro st
    unfold handleMoreChangesAux
    by_cases h : st.pendingRevMessages < cfg.maxPendingRevs
    · simp only [h, if_true]
      exact ⟨coreEq_trans (handleChangesNow_coreEq cfg st m)
               (ih (handleChangesNow cfg st m).1).1,
             (ih (handleChangesNow cfg st m).1).2⟩
    · simp only [h, if_false]
      exact ⟨⟨rfl, rfl, rfl, rfl, rfl, rfl, rfl⟩, fun _ => Nat.le_of_not_lt h⟩

theorem handleMoreChanges_spec (cfg : Config) (st : PState) :
    CoreEq st (handleMoreChanges cfg st).1 ∧
    ((handleMoreChanges cfg st).1.waitingChangesMessages ≠ [] →
      cfg.maxPendingRevs ≤ (handleMoreChanges cfg st).1.pendingRevMessages) :=
  handleMoreChangesAux_spec cfg st.waitingChangesMessages st

theorem updateLastSequence_missing (st : PState) :
    (updateLastSequence st).missingSequences = st.missingSequences := by
  unfold updateLastSequence
  split <;> rfl

theorem updateLastSequence_last (st : PState) :
    (updateLastSequence st).lastSequence = st.missingSequences.base := by
  unfold updateLastSequence
  split
  · rfl
  · next h =>
    simp only [MissingSequenceSet.since, ne_eq, not_not] at h
    exact h.symm

theorem updateLastSequence_frame (st : PState) :
    (updateLastSequence st).pendingRevMessages = st.pendingRevMessages ∧
    (updateLastSequence st).activeIncomingRevs = st.activeIncomingRevs ∧
    (updateLastSequence st).unfinishedIncomingRevs = st.unfinishedIncomingRevs ∧
    (updateLastSequence st).waitingChangesMessages = st.waitingChangesMessages ∧
    (updateLastSequence st).waitingRevMessages = st.waitingRevMessages ∧
    (updateLastSequence st).incomingDocIDs = st.incomingDocIDs ∧
    (updateLastSequence st).progressCompleted = st.progressCompleted := by
  unfold updateLastSequence
  split <;> exact ⟨rfl, rfl, rfl, rfl, rfl, rfl, rfl⟩

theorem completedSequence_frame (st : PState) (seq : Option Nat) (te su : Bool) :
    (completedSequence st seq te su).pendingRevMessages = st.pendingRevMessages ∧
    (completedSequence st seq te su).activeIncomingRevs = st.activeIncomingRevs ∧
    (completedSequence st seq te su).unfinishedIncomingRevs = st.unfinishedIncomingRevs ∧
    (completedSequence st seq te su).waitingChangesMessages = st.waitingChangesMessages ∧
    (completedSequence st seq te su).waitingRevMessages = st.waitingRevMessages ∧
    (completedSequence st seq te su).incomingDocIDs = st.incomingDocIDs := by
  rcases seq with _ | q
  · exact ⟨rfl, rfl, rfl, rfl, rfl, rfl⟩
  · simp only [completedSequence, updateLastSequence]
    split_ifs <;> exact ⟨rfl, rfl, rfl, rfl, rfl, rfl⟩

theorem completedSequence_WF_mono (st : PState) (seq : Option Nat) (te su : Bool)
    (h : st.missingSequences.WF) :
    (completedSequence st seq te su).missingSequences.WF ∧
    st.missingSequences.base ≤ (completedSequence st seq te su).missingSequences.base := by
  rcases seq with _ | q
  · exact ⟨h, le_refl _⟩
  · have hr := MissingSequenceSet.remove_WF_base st.missingSequences q h
    simp only [completedSequence, updateLastSequence]
    split_ifs <;> first
      | exact ⟨h, le_refl _⟩
      | exact hr

theorem completedSequence_last_noUpdate (st : PState) (seq : Option Nat) (te : Bool) :
    (completedSequence st seq te false).lastSequence = st.lastSequence := by
  rcases seq with _ | q
  · rfl
  · simp only [completedSequence]
    split_ifs <;> first | rfl | simp_all

theorem completedSequence_lastEq (st : PState) (seq : Option Nat) (te : Bool)
    (h : st.lastSequence = st.missingSequences.base) :
    (completedSequence st seq te true).lastSequence
      = (completedSequence st seq te true).missingSequences.base := by
  rcases seq with _ | q
  · exact h
  · simp only [completedSequence, updateLastSequence, Bool.and_true]
    split_ifs with h1 h2 h3
    · exact h
    · rfl
    · simp only [ne_eq, not_not] at h3
      exact h3.symm
    · have hfalse : (st.missingSequences.remove q).2.1 = false := by
        simpa using h2
      have hb := MissingSequenceSet.remove_base_of_not_earliest st.missingSequences q hfalse
      show st.lastSequence = (st.missingSequences.remove q).1.base
      rw [hb]
      exact h


theorem completedSequence_inv (st : PState) (seq : Option Nat) (te : Bool)
    (hwf : st.missingSequences.WF)
    (hlast : st.lastSequence = st.missingSequences.base) :
    (completedSequence st seq te true).missingSequences.WF
    ∧ (completedSequence st seq te true).lastSequence
        = (completedSequence st seq te true).missingSequences.base
    ∧ st.missingSequences.base ≤ (completedSequence st seq te true).missingSequences.base
    ∧ (completedSequence st seq te true).pendingRevMessages = st.pendingRevMessages
    ∧ (completedSequence st seq te true).activeIncomingRevs = st.activeIncomingRevs
    ∧ (completedSequence st seq te true).unfinishedIncomingRevs = st.unfinishedIncomingRevs
    ∧ (completedSequence st seq te true).waitingChangesMessages = st.waitingChangesMessages
    ∧ (completedSequence st seq te true).waitingRevMessages = st.waitingRevMessages
    ∧ (completedSequence st seq te true).incomingDocIDs = st.incomingDocIDs := by
  have h1 := completedSequence_WF_mono st seq te true hwf
  have h2 := completedSequence_frame st seq te true
  have h3 := completedSequence_lastEq st seq te hlast
  exact ⟨h1.1, h3, h1.2, h2.1, h2.2.1, h2.2.2.1, h2.2.2.2.1, h2.2.2.2.2.1,
         h2.2.2.2.2.2⟩
theorem startIncomingRev_spec (cfg : Config) (st : PState) :
    (startIncomingRev cfg st).1.missingSequences = st.missingSequences
    ∧ (startIncomingRev cfg st).1.lastSequence = st.lastSequence
    ∧ (startIncomingRev cfg st).1.pendingRevMessages = st.pendingRevMessages - 1
    ∧ (startIncomingRev cfg st).1.activeIncomingRevs = st.activeIncomingRevs + 1
    ∧ (startIncomingRev cfg st).1.unfinishedIncomingRevs = st.unfinishedIncomingRevs + 1
    ∧ (startIncomingRev cfg st).1.waitingRevMessages = st.waitingRevMessages
    ∧ (startIncomingRev cfg st).1.incomingDocIDs = st.incomingDocIDs
    ∧ ((startIncomingRev cfg st).1.waitingChangesMessages ≠ [] →
        cfg.maxPendingRevs ≤ (startIncomingRev cfg st).1.pendingRevMessages) := by
  have h := handleMoreChanges_spec cfg
    { st with pendingRevMessages := st.pendingRevMessages - 1,
              activeIncomingRevs := st.activeIncomingRevs + 1,
              unfinishedIncomingRevs := st.unfinishedIncomingRevs + 1,
              spareIncomingRevs := st.spareIncomingRevs - 1 }
  obtain ⟨⟨a, b, c, d, e, f, g⟩, hpost⟩ := h
  exact ⟨a, b, c, d, e, f, g, hpost⟩

theorem processChange_spec (cfg : Config) (st : PState) (p : Bool × ChangeEntry)
    (hwf : st.missingSequences.WF)
    (hlast : st.lastSequence = st.missingSequences.base) :
    (processChange cfg st p).missingSequences.WF
    ∧ (processChange cfg st p).lastSequence = (processChange cfg st p).missingSequences.base
    ∧ st.missingSequences.base ≤ (processChange cfg st p).missingSequences.base
    ∧ (processChange cfg st p).activeIncomingRevs = st.activeIncomingRevs
    ∧ (processChange cfg st p).unfinishedIncomingRevs = st.unfinishedIncomingRevs
    ∧ (processChange cfg st p).waitingChangesMessages = st.waitingChangesMessages
    ∧ (processChange cfg st p).waitingRevMessages = st.waitingRevMessages
    ∧ st.pendingRevMessages ≤ (processChange cfg st p).pendingRevMessages := by
  obtain ⟨req, c⟩ := p
  simp only [processChange]
  cases hcp : cfg.nonPassive with
  | false =>
    cases req with
    | false =>
      exact ⟨hwf, hlast, le_refl _, rfl, rfl, rfl, rfl, le_refl _⟩
    | true =>
      exact ⟨hwf, hlast, le_refl _, rfl, rfl, rfl, rfl, Nat.le_succ _⟩
  | true =>
    cases hcs : c.seq with
    | none =>
      cases req with
      | false =>
        exact ⟨hwf, hlast, le_refl _, rfl, rfl, rfl, rfl, le_refl _⟩
      | true =>
        exact ⟨hwf, hlast, le_refl _, rfl, rfl, rfl, rfl, Nat.le_succ _⟩
    | some q =>
      cases req with
      | false =>
        have hwfA : (st.missingSequences.add q 0).WF :=
          MissingSequenceSet.add_WF st.missingSequences q 0 hwf
        have hbaseA : (st.missingSequences.add q 0).base = st.missingSequences.base :=
          MissingSequenceSet.add_base st.missingSequences q 0
        have hpack := completedSequence_inv
          { st with missingSequences := st.missingSequences.add q 0,
                    progressTotal := st.progressTotal + 0 }
          (some q) false hwfA (by simpa [hbaseA] using hlast)
        refine ⟨hpack.1, hpack.2.1, ?_, hpack.2.2.2.2.1, hpack.2.2.2.2.2.1,
                hpack.2.2.2.2.2.2.1, hpack.2.2.2.2.2.2.2.1,
                le_of_eq hpack.2.2.2.1.symm⟩
        calc st.missingSequences.base
            = (st.missingSequences.add q 0).base := hbaseA.symm
          _ ≤ _ := hpack.2.2.1
      | true =>
        have hwfA : (st.missingSequences.add q (max c.bodySize 1)).WF :=
          MissingSequenceSet.add_WF st.missingSequences q _ hwf
        have hbaseA : (st.missingSequences.add q (max c.bodySize 1)).base
            = st.missingSequences.base :=
          MissingSequenceSet.add_base st.missingSequences q _
        exact ⟨hwfA, by simpa [hbaseA] using hlast, le_of_eq hbaseA.symm,
               rfl, rfl, rfl, rfl, Nat.le_succ _⟩

theorem processChange_fold (cfg : Config) :
    ∀ (l : List (Bool × ChangeEntry)) (st : PState),
      st.missingSequences.WF → st.lastSequence = st.missingSequences.base →
      (l.foldl (processChange cfg) st).missingSequences.WF
      ∧ (l.foldl (processChange cfg) st).lastSequence
          = (l.foldl (processChange cfg) st).missingSequences.base
      ∧ st.missingSequences.base ≤ (l.foldl (processChange cfg) st).missingSequences.base
      ∧ (l.foldl (processChange cfg) st).activeIncomingRevs = st.activeIncomingRevs
      ∧ (l.foldl (processChange cfg) st).unfinishedIncomingRevs = st.unfinishedIncomingRevs
      ∧ (l.foldl (processChange cfg) st).waitingChangesMessages = st.waitingChangesMessages
      ∧ (l.foldl (processChange cfg) st).waitingRevMessages = st.waitingRevMessages
      ∧ st.pendingRevMessages ≤ (l.foldl (processChange cfg) st).pendingRevMessages := by
  intro l
  induction l with
  | nil =>
    intro st hwf hlast
    exact ⟨hwf, hlast, le_refl _, rfl, rfl, rfl, rfl, le_refl _⟩
  | cons p rest ih =>
    intro st hwf hlast
    have h1 := processChange_spec cfg st p hwf hlast
    have h2 := ih (processChange cfg st p) h1.1 h1.2.1
    simp only [List.foldl_cons]
    refine ⟨h2.1, h2.2.1, le_trans h1.2.2.1 h2.2.2.1,
            h2.2.2.2.1.trans h1.2.2.2.1,
            h2.2.2.2.2.1.trans h1.2.2.2.2.1,
            h2.2.2.2.2.2.1.trans h1.2.2.2.2.2.1,
            h2.2.2.2.2.2.2.1.trans h1.2.2.2.2.2.2.1,
            le_trans h1.2.2.2.2.2.2.2 h2.2.2.2.2.2.2.2⟩

theorem noRevCore_spec (st : PState) (m : NoRevMsg)
    (hwf : st.missingSequences.WF)
    (hlast : st.lastSequence = st.missingSequences.base) :
    (noRevCore st m).missingSequences.WF
    ∧ (noRevCore st m).lastSequence = (noRevCore st m).missingSequences.base
    ∧ st.missingSequences.base ≤ (noRevCore st m).missingSequences.base
    ∧ (noRevCore st m).activeIncomingRevs = st.activeIncomingRevs
    ∧ (noRevCore st m).unfinishedIncomingRevs = st.unfinishedIncomingRevs
    ∧ (noRevCore st m).waitingChangesMessages = st.waitingChangesMessages
    ∧ (noRevCore st m).waitingRevMessages = st.waitingRevMessages
    ∧ (noRevCore st m).pendingRevMessages = st.pendingRevMessages - 1
    ∧ (noRevCore st m).incomingDocIDs = st.incomingDocIDs.erase m.docID := by
  have hpack := completedSequence_inv
    { st with incomingDocIDs := st.incomingDocIDs.erase m.docID,
              pendingRevMessages := st.pendingRevMessages - 1 }
    m.sequence false hwf hlast
  exact ⟨hpack.1, hpack.2.1, hpack.2.2.1, hpack.2.2.2.2.1, hpack.2.2.2.2.2.1,
         hpack.2.2.2.2.2.2.1, hpack.2.2.2.2.2.2.2.1, hpack.2.2.2.1,
         hpack.2.2.2.2.2.2.2.2⟩

theorem revProv_spec (cfg : Config) (st : PState)
    (hact : st.activeIncomingRevs ≤ cfg.maxActiveIncomingRevs)
    (hunf : st.unfinishedIncomingRevs ≤ cfg.maxUnfinishedIncomingRevs)
    (hwait : st.waitingChangesMessages ≠ [] →
      cfg.maxPendingRevs ≤ st.pendingRevMessages) :
    (revWasProvisionallyHandled cfg st).1.missingSequences = st.missingSequences
    ∧ (revWasProvisionallyHandled cfg st).1.lastSequence = st.lastSequence
    ∧ (revWasProvisionallyHandled cfg st).1.incomingDocIDs = st.incomingDocIDs
    ∧ (revWasProvisionallyHandled cfg st).1.activeIncomingRevs
        ≤ cfg.maxActiveIncomingRevs
    ∧ (revWasProvisionallyHandled cfg st).1.unfinishedIncomingRevs
        ≤ cfg.maxUnfinishedIncomingRevs
    ∧ ((revWasProvisionallyHandled cfg st).1.waitingChangesMessages ≠ [] →
        cfg.maxPendingRevs ≤ (revWasProvisionallyHandled cfg st).1.pendingRevMessages) := by
  unfold revWasProvisionallyHandled
  by_cases hgate : (st.activeIncomingRevs - 1 < cfg.maxActiveIncomingRevs
      && st.unfinishedIncomingRevs < cfg.maxUnfinishedIncomingRevs) = true
  · rw [if_pos hgate]
    simp only [Bool.and_eq_true, decide_eq_true_eq] at hgate
    cases hw : st.waitingRevMessages with
    | nil =>
      exact ⟨rfl, rfl, rfl, le_trans (Nat.sub_le _ _) hact, hunf, hwait⟩
    | cons w rest =>
      have hstart := startIncomingRev_spec cfg
        { st with activeIncomingRevs := st.activeIncomingRevs - 1,
                  waitingRevMessages := rest }
      have hmore := handleMoreChanges_spec cfg
        (startIncomingRev cfg
          { st with activeIncomingRevs := st.activeIncomingRevs - 1,
                    waitingRevMessages := rest }).1
      obtain ⟨⟨a, b, c, d, e, f, g⟩, hpost⟩ := hmore
      refine ⟨a.trans hstart.1, b.trans hstart.2.1, g.trans hstart.2.2.2.2.2.2.1, ?_, ?_, hpost⟩
      · rw [d, hstart.2.2.2.1]
        exact hgate.1
      · rw [e, hstart.2.2.2.2.1]
        exact hgate.2
  · rw [if_neg hgate]
    exact ⟨rfl, rfl, rfl, le_trans (Nat.sub_le _ _) hact, hunf, hwait⟩

theorem finishOne_spec (cfg : Config) (st : PState) (inc : FinishedRev)
    (hwf : st.missingSequences.WF)
    (hact : st.activeIncomingRevs ≤ cfg.maxActiveIncomingRevs)
    (hunf : st.unfinishedIncomingRevs ≤ cfg.maxUnfinishedIncomingRevs)
    (hwait : st.waitingChangesMessages ≠ [] →
      cfg.maxPendingRevs ≤ st.pendingRevMessages) :
    (finishOne cfg st inc).missingSequences.WF
    ∧ st.missingSequences.base ≤ (finishOne cfg st inc).missingSequences.base
    ∧ (finishOne cfg st inc).lastSequence = st.lastSequence
    ∧ (finishOne cfg st inc).activeIncomingRevs ≤ cfg.maxActiveIncomingRevs
    ∧ (finishOne cfg st inc).unfinishedIncomingRevs ≤ cfg.maxUnfinishedIncomingRevs
    ∧ ((finishOne cfg st inc).waitingChangesMessages ≠ [] →
        cfg.maxPendingRevs ≤ (finishOne cfg st inc).pendingRevMessages)
    ∧ (cfg.nonPassive = false →
        (finishOne cfg st inc).missingSequences = st.missingSequences) := by
  unfold finishOne
  by_cases hpi : inc.wasProvisionallyInserted = true
  all_goals simp only [hpi, if_true, Bool.false_eq_true, if_false]
  · cases hnp : cfg.nonPassive with
    | false =>
      simp only [Bool.false_eq_true, if_false]
      refine ⟨hwf, le_refl _, ?_, hact, hunf, hwait, ?_⟩ <;> trivial
    | true =>
      simp only [if_true]
      have hpack := completedSequence_WF_mono
        { st with incomingDocIDs := st.incomingDocIDs.erase inc.docID }
        inc.remoteSequence inc.errorIsTransient false hwf
      have hframe := completedSequence_frame
        { st with incomingDocIDs := st.incomingDocIDs.erase inc.docID }
        inc.remoteSequence inc.errorIsTransient false
      have hlastn := completedSequence_last_noUpdate
        { st with incomingDocIDs := st.incomingDocIDs.erase inc.docID }
        inc.remoteSequence inc.errorIsTransient
      refine ⟨hpack.1, hpack.2, hlastn, ?_, ?_, ?_, by simp⟩
      · rw [hframe.2.1]
        exact hact
      · rw [hframe.2.2.1]
        exact hunf
      · rw [hframe.2.2.2.1, hframe.1]
        exact hwait
  · simp only [Bool.not_eq_true] at hpi
    have hprov := revProv_spec cfg st hact hunf hwait
    cases hnp : cfg.nonPassive with
    | false =>
      simp only [Bool.false_eq_true, if_false]
      refine ⟨hprov.1 ▸ hwf, le_of_eq (congrArg MissingSequenceSet.base hprov.1).symm,
              hprov.2.1, hprov.2.2.2.1, hprov.2.2.2.2.1, hprov.2.2.2.2.2, fun _ => hprov.1⟩
    | true =>
      simp only [if_true]
      set Y := { (revWasProvisionallyHandled cfg st).1 with
        incomingDocIDs := (revWasProvisionallyHandled cfg st).1.incomingDocIDs.erase inc.docID }
      have hYwf : Y.missingSequences.WF := by
        show (revWasProvisionallyHandled cfg st).1.missingSequences.WF
        rw [hprov.1]
        exact hwf
      have hpack := completedSequence_WF_mono Y
        inc.remoteSequence inc.errorIsTransient false hYwf
      have hframe := completedSequence_frame Y
        inc.remoteSequence inc.errorIsTransient false
      have hlastn := completedSequence_last_noUpdate Y
        inc.remoteSequence inc.errorIsTransient
      have hYbase : Y.missingSequences.base = st.missingSequences.base := by
        show (revWasProvisionallyHandled cfg st).1.missingSequences.base = _
        rw [hprov.1]
      refine ⟨hpack.1, ?_, ?_, ?_, ?_, ?_, by simp⟩
      · exact le_trans (le_of_eq hYbase.symm) hpack.2
      · rw [hlastn]
        exact hprov.2.1
      · rw [hframe.2.1]
        exact hprov.2.2.2.1
      · rw [hframe.2.2.1]
        exact hprov.2.2.2.2.1
      · rw [hframe.2.2.2.1, hframe.1]
        exact hprov.2.2.2.2.2

theorem finishOne_fold (cfg : Config) :
    ∀ (batch : List FinishedRev) (st : PState),
      st.missingSequences.WF →
      st.activeIncomingRevs ≤ cfg.maxActiveIncomingRevs →
      st.unfinishedIncomingRevs ≤ cfg.maxUnfinishedIncomingRevs →
      (st.waitingChangesMessages ≠ [] → cfg.maxPendingRevs ≤ st.pendingRevMessages) →
      (batch.foldl (finishOne cfg) st).missingSequences.WF
      ∧ st.missingSequences.base ≤ (batch.foldl (finishOne cfg) st).missingSequences.base
      ∧ (batch.foldl (finishOne cfg) st).lastSequence = st.lastSequence
      ∧ (batch.foldl (finishOne cfg) st).activeIncomingRevs ≤ cfg.maxActiveIncomingRevs
      ∧ (batch.foldl (finishOne cfg) st).unfinishedIncomingRevs
          ≤ cfg.maxUnfinishedIncomingRevs
      ∧ ((batch.foldl (finishOne cfg) st).waitingChangesMessages ≠ [] →
          cfg.maxPendingRevs ≤ (batch.foldl (finishOne cfg) st).pendingRevMessages)
      ∧ (cfg.nonPassive = false →
          (batch.foldl (finishOne cfg) st).missingSequences = st.missingSequences) := by
  intro batch
  induction batch with
  | nil =>
    intro st hwf hact hunf hwait
    exact ⟨hwf, le_refl _, rfl, hact, hunf, hwait, fun _ => rfl⟩
  | cons inc rest ih =>
    intro st hwf hact hunf hwait
    have h1 := finishOne_spec cfg st inc hwf hact hunf hwait
    have h2 := ih (finishOne cfg st inc) h1.1 h1.2.2.2.1 h1.2.2.2.2.1 h1.2.2.2.2.2.1
    simp only [List.foldl_cons]
    refine ⟨h2.1, le_trans h1.2.1 h2.2.1, h2.2.2.1.trans h1.2.2.1,
            h2.2.2.2.1, h2.2.2.2.2.1, h2.2.2.2.2.2.1, ?_⟩
    intro hnp
    exact (h2.2.2.2.2.2.2 hnp).trans (h1.2.2.2.2.2.2 hnp)

theorem inv_step (cfg : Config) (st : PState) (op : Op) (h : Inv cfg st) :
    Inv cfg (stepP cfg st op)
    ∧ st.missingSequences.base ≤ (stepP cfg st op).missingSequences.base := by
  obtain ⟨hwf, hlast, hact, hunf, hwait⟩ := h
  cases op with
  | changes m =>
    simp only [stepP, stepO]
    unfold handleChangesOp
    obtain ⟨⟨a, b, c, d, e, f, g⟩, hpost⟩ := handleMoreChanges_spec cfg
      { st with waitingChangesMessages := st.waitingChangesMessages ++ [m] }
    refine ⟨⟨?_, ?_, ?_, ?_, hpost⟩, ?_⟩
    · rw [a]
      exact hwf
    · rw [a, b]
      exact hlast
    · rw [d]
      exact hact
    · rw [e]
      exact hunf
    · rw [a]
  | revFinderCb which =>
    simp only [stepP, stepO]
    unfold revFinderCbOp
    cases hq : st.revFinderQueue with
    | nil => exact ⟨⟨hwf, hlast, hact, hunf, hwait⟩, le_refl _⟩
    | cons entries rest =>
      have hfold := processChange_fold cfg (which.zip entries)
        { st with revFinderQueue := rest,
                  pendingRevFinderCalls := st.pendingRevFinderCalls - 1 }
        hwf hlast
      refine ⟨⟨hfold.1, hfold.2.1, ?_, ?_, ?_⟩, hfold.2.2.1⟩
      · rw [hfold.2.2.2.1]
        exact hact
      · rw [hfold.2.2.2.2.1]
        exact hunf
      · rw [hfold.2.2.2.2.2.1]
        intro hne
        exact le_trans (hwait hne) hfold.2.2.2.2.2.2.2
  | rev m =>
    simp only [stepP, stepO]
    unfold handleRevOp
    by_cases hgate : (st.activeIncomingRevs < cfg.maxActiveIncomingRevs
        && st.unfinishedIncomingRevs < cfg.maxUnfinishedIncomingRevs) = true
    · rw [if_pos hgate]
      simp only [Bool.and_eq_true, decide_eq_true_eq] at hgate
      have hs := startIncomingRev_spec cfg st
      refine ⟨⟨?_, ?_, ?_, ?_, hs.2.2.2.2.2.2.2⟩, ?_⟩
      · rw [hs.1]
        exact hwf
      · rw [hs.1, hs.2.1]
        exact hlast
      · rw [hs.2.2.2.1]
        exact hgate.1
      · rw [hs.2.2.2.2.1]
        exact hgate.2
      · rw [hs.1]
    · rw [if_neg hgate]
      exact ⟨⟨hwf, hlast, hact, hunf, hwait⟩, le_refl _⟩
  | noRev m =>
    simp only [stepP, stepO]
    unfold handleNoRevOp
    have hcore := noRevCore_spec st m hwf hlast
    obtain ⟨⟨a, b, c, d, e, f, g⟩, hpost⟩ := handleMoreChanges_spec cfg (noRevCore st m)
    refine ⟨⟨?_, ?_, ?_, ?_, hpost⟩, ?_⟩
    · rw [a]
      exact hcore.1
    · rw [a, b]
      exact hcore.2.1
    · rw [d, hcore.2.2.2.1]
      exact hact
    · rw [e, hcore.2.2.2.2.1]
      exact hunf
    · rw [a]
      exact hcore.2.2.1
  | revProvisional =>
    simp only [stepP, stepO]
    have hprov := revProv_spec cfg st hact hunf hwait
    refine ⟨⟨?_, ?_, hprov.2.2.2.1, hprov.2.2.2.2.1, hprov.2.2.2.2.2⟩, ?_⟩
    · rw [hprov.1]
      exact hwf
    · rw [hprov.1, hprov.2.1]
      exact hlast
    · rw [hprov.1]
  | revsFinished batch =>
    simp only [stepP, stepO]
    unfold revsFinishedOp
    have hfold := finishOne_fold cfg batch st hwf hact hunf hwait
    cases hnp : cfg.nonPassive with
    | false =>
      simp only [Bool.false_eq_true, if_false]
      refine ⟨⟨hfold.1, ?_, hfold.2.2.2.1, le_trans (Nat.sub_le _ _) hfold.2.2.2.2.1,
               hfold.2.2.2.2.2.1⟩, hfold.2.1⟩
      show (batch.foldl (finishOne cfg) st).lastSequence
          = (batch.foldl (finishOne cfg) st).missingSequences.base
      rw [hfold.2.2.2.2.2.2 hnp, hfold.2.2.1]
      exact hlast
    | true =>
      simp only [if_true]
      refine ⟨⟨?_, ?_, ?_, ?_, ?_⟩, ?_⟩
      · show (updateLastSequence _).missingSequences.WF
        rw [updateLastSequence_missing]
        exact hfold.1
      · show (updateLastSequence _).lastSequence
            = (updateLastSequence _).missingSequences.base
        rw [updateLastSequence_last, updateLastSequence_missing]
      · show (updateLastSequence _).activeIncomingRevs ≤ _
        rw [(updateLastSequence_frame _).2.1]
        exact hfold.2.2.2.1
      · show (updateLastSequence _).unfinishedIncomingRevs ≤ _
        rw [(updateLastSequence_frame _).2.2.1]
        exact le_trans (Nat.sub_le _ _) hfold.2.2.2.2.1
      · show (updateLastSequence _).waitingChangesMessages ≠ [] → _
        rw [(updateLastSequence_frame _).2.2.2.1, (updateLastSequence_frame _).1]
        exact hfold.2.2.2.2.2.1
      · show st.missingSequences.base ≤ (updateLastSequence _).missingSequences.base
        rw [updateLastSequence_missing]
        exact hfold.2.1
  | subChangesReplyError =>
    exact ⟨⟨hwf, hlast, hact, hunf, hwait⟩, le_refl _⟩

theorem inv_start (cfg : Config) (sd : Bool) (since : Nat) :
    Inv cfg (startState sd since) := by
  refine ⟨⟨List.Pairwise.nil, ?_⟩, rfl, Nat.zero_le _, Nat.zero_le _, ?_⟩
  · intro e he
    simp [startState, MissingSequenceSet.clear] at he
  · intro hne
    exact absurd rfl hne

theorem inv_run (cfg : Config) :
    ∀ (ops : List Op) (st : PState), Inv cfg st →
      Inv cfg (run cfg st ops)
      ∧ st.missingSequences.base ≤ (run cfg st ops).missingSequences.base := by
  intro ops
  induction ops with
  | nil => exact fun st h => ⟨h, le_refl _⟩
  | cons op rest ih =>
    intro st h
    have h1 := inv_step cfg st op h
    have h2 := ih (stepP cfg st op) h1.1
    exact ⟨h2.1, le_trans h1.2 h2.2⟩

theorem inv_runFrom (cfg : Config) (sd : Bool) (since : Nat) (ops : List Op) :
    Inv cfg (runFrom cfg sd since ops) :=
  (inv_run cfg ops (startState sd since) (inv_start cfg sd since)).1

theorem completedSequence_missing_remove (st : PState) (x : Nat) (su : Bool) :
    (completedSequence st (some x) false su).missingSequences
      = (st.missingSequences.remove x).1 := by
  simp only [completedSequence, Bool.false_eq_true, if_false]
  split_ifs
  · exact updateLastSequence_missing _
  · rfl

/-- C2: for every sequence `s`, `completedSequence(s, withTransientError=true, _)`
leaves the missing set unchanged (so `s` is not removed), leaves the cached
checkpoint `_lastSequence` unchanged, and increases completed progress by the
body size recorded for `s` in the missing set. -/
theorem c2_transient_error_effects (st : PState) (s : Nat) (su : Bool) :
    (completedSequence st (some s) true su).missingSequences = st.missingSequences
    ∧ (completedSequence st (some s) true su).lastSequence = st.lastSequence
    ∧ (completedSequence st (some s) true su).progressCompleted
        = st.progressCompleted + st.missingSequences.bodySizeOfSequence s
    ∧ (completedSequence st (some s) true su).pendingRevMessages
        = st.pendingRevMessages :=
  ⟨rfl, rfl, rfl, rfl⟩

/-- C5: whenever the `fatalError` flag is set or the transport connection is
absent, `computeActivityLevel` returns Stopped regardless of `caughtUp` and
of every counter. -/
theorem c5_fatal_error_stopped (cfg : Config) (st : PState)
    (connected baseBusy isOpenServer : Bool)
    (h : st.fatalError = true ∨ connected = false) :
    computeActivityLevel cfg st connected baseBusy isOpenServer
      = ActivityLevel.stopped := by
  unfold computeActivityLevel
  rcases h with h | h <;> simp [h]

/-- Witness for C5 at a concrete state with `fatalError` set and all the
busy-making counters in play. -/
theorem c5_fatal_error_stopped_witness :
    (({ startState false 0 with
        fatalError := true,
        pendingRevMessages := 3, unfinishedIncomingRevs := 2,
        pendingRevFinderCalls := 1 } : PState).fatalError = true ∨ true = false)
    ∧ computeActivityLevel ⟨2, 2, 2, true, false, true⟩
        { startState false 0 with
          fatalError := true,
          pendingRevMessages := 3, unfinishedIncomingRevs := 2,
          pendingRevFinderCalls := 1 } true true true
      = ActivityLevel.stopped :=
  ⟨Or.inl rfl,
   c5_fatal_error_stopped ⟨2, 2, 2, true, false, true⟩
     { startState false 0 with
       fatalError := true,
       pendingRevMessages := 3, unfinishedIncomingRevs := 2,
       pendingRevFinderCalls := 1 } true true true (Or.inl rfl)⟩

/-- C7 counterexample: a `changes` body that parses to JSON `null` (the raw
body is the literal string "null") is answered with an empty reply and sets
`caughtUp`, not with error 400 as the claim states. -/
theorem c7_null_body_counterexample :
    (handleChangesNow ⟨2, 2, 2, true, false, false⟩ (startState false 0)
        ⟨false, false, ChangesBody.nonArray true⟩).2 = [Output.replyEmpty]
    ∧ (handleChangesNow ⟨2, 2, 2, true, false, false⟩ (startState false 0)
        ⟨false, false, ChangesBody.nonArray true⟩).1.caughtUp = true
    ∧ (handleChangesNow ⟨2, 2, 2, true, false, false⟩ (startState false 0)
        ⟨false, false, ChangesBody.nonArray true⟩).2
        ≠ [Output.replyError 400 "Invalid JSON body"] := by
  refine ⟨rfl, rfl, ?_⟩
  decide

/-- C7 (amended): a `changes` body that parses to a non-array and whose raw
body is not the literal "null" is answered with error 400 ("Invalid JSON
body") and the state is completely unchanged: no sequence is added and no
counter moves. -/
theorem c7_invalid_body_400 (cfg : Config) (st : PState) (m : ChangesMsg)
    (h : m.body = ChangesBody.nonArray false) :
    handleChangesNow cfg st m = (st, [Output.replyError 400 "Invalid JSON body"]) := by
  rcases m with ⟨p, nr, b⟩
  simp only at h
  subst h
  rfl

/-- Witness for the amended C7 at a concrete malformed message. -/
theorem c7_invalid_body_400_witness :
    (⟨true, false, ChangesBody.nonArray false⟩ : ChangesMsg).body
      = ChangesBody.nonArray false
    ∧ handleChangesNow ⟨2, 2, 2, true, false, false⟩ (startState false 7)
        ⟨true, false, ChangesBody.nonArray false⟩
      = (startState false 7, [Output.replyError 400 "Invalid JSON body"]) :=
  ⟨rfl, c7_invalid_body_400 ⟨2, 2, 2, true, false, false⟩ (startState false 7)
     ⟨true, false, ChangesBody.nonArray false⟩ rfl⟩

/-- C8: an empty `changes` array sets `caughtUp`, clears `skipDeleted` and
sends an empty reply; nothing else of the state changes, so no sequence is
added and no flow-control counter moves. -/
theorem c8_empty_changes_caught_up (cfg : Config) (st : PState) (m : ChangesMsg)
    (h : m.body = ChangesBody.array []) :
    handleChangesNow cfg st m
      = ({ st with caughtUp := true, skipDeleted := false }, [Output.replyEmpty]) := by
  rcases m with ⟨p, nr, b⟩
  simp only at h
  subst h
  rfl

/-- Witness for C8 at a concrete empty batch. -/
theorem c8_empty_changes_caught_up_witness :
    (⟨false, false, ChangesBody.array []⟩ : ChangesMsg).body = ChangesBody.array []
    ∧ handleChangesNow ⟨2, 2, 2, true, false, false⟩ (startState true 9)
        ⟨false, false, ChangesBody.array []⟩
      = ({ startState true 9 with caughtUp := true, skipDeleted := false },
         [Output.replyEmpty]) :=
  ⟨rfl, c8_empty_changes_caught_up ⟨2, 2, 2, true, false, false⟩ (startState true 9)
     ⟨false, false, ChangesBody.array []⟩ rfl⟩

/-- C10: a non-empty `changes` batch whose no-reply flag is set is dropped
with a warning: the handler changes nothing (the RevFinder is not invoked,
no counter moves, no sequence is added) and sends no reply. -/
theorem c10_noreply_changes_noop (cfg : Config) (st : PState) (m : ChangesMsg)
    (c : ChangeEntry) (cs : List ChangeEntry)
    (hb : m.body = ChangesBody.array (c :: cs)) (hnr : m.noReply = true) :
    handleChangesNow cfg st m = (st, []) := by
  rcases m with ⟨p, nr, b⟩
  simp only at hb hnr
  subst hb
  subst hnr
  rfl

/-- Witness for C10 at a concrete no-reply batch. -/
theorem c10_noreply_changes_noop_witness :
    (⟨false, true, ChangesBody.array [⟨some 5, "d", "r", 0, 9⟩]⟩ : ChangesMsg).body
      = ChangesBody.array [⟨some 5, "d", "r", 0, 9⟩]
    ∧ (⟨false, true, ChangesBody.array [⟨some 5, "d", "r", 0, 9⟩]⟩ : ChangesMsg).noReply
      = true
    ∧ handleChangesNow ⟨2, 2, 2, true, false, false⟩ (startState false 0)
        ⟨false, true, ChangesBody.array [⟨some 5, "d", "r", 0, 9⟩]⟩
      = (startState false 0, []) :=
  ⟨rfl, rfl,
   c10_noreply_changes_noop ⟨2, 2, 2, true, false, false⟩ (startState false 0)
     ⟨false, true, ChangesBody.array [⟨some 5, "d", "r", 0, 9⟩]⟩
     ⟨some 5, "d", "r", 0, 9⟩ [] rfl rfl⟩

/-- C1: across every trace of operations after `_start(sinceSequence)`, the
cached checkpoint `_lastSequence` is monotonically non-decreasing, always
equals `MissingSequenceSet.since()`, and never exceeds any sequence still
pending in the missing set. -/
theorem c1_checkpoint_monotone_and_bounded (cfg : Config) (sd : Bool)
    (sinceSequence : Nat) (ops : List Op) (op : Op) :
    (runFrom cfg sd sinceSequence ops).lastSequence
      ≤ (stepP cfg (runFrom cfg sd sinceSequence ops) op).lastSequence
    ∧ (stepP cfg (runFrom cfg sd sinceSequence ops) op).lastSequence
        = (stepP cfg (runFrom cfg sd sinceSequence ops) op).missingSequences.since
    ∧ ∀ e ∈ (stepP cfg (runFrom cfg sd sinceSequence ops) op).missingSequences.entries,
        e.pending = true →
        (stepP cfg (runFrom cfg sd sinceSequence ops) op).lastSequence ≤ e.seq := by
  have hInv := inv_runFrom cfg sd sinceSequence ops
  have hstep := inv_step cfg (runFrom cfg sd sinceSequence ops) op hInv
  obtain ⟨⟨hwf', hlast', _, _, _⟩, hmono⟩ := hstep
  obtain ⟨hwf, hlast, _, _, _⟩ := hInv
  refine ⟨?_, hlast', ?_⟩
  · rw [hlast, hlast']
    exact hmono
  · intro e he _
    rw [hlast']
    exact le_of_lt (hwf'.2 e he)

/-- Witness for C1 on a concrete trace: one announced change (sequence 101)
whose `rev` message then starts processing; the checkpoint stays at the
start sequence 100, equals `since()`, and is below the pending sequence. -/
theorem c1_checkpoint_monotone_and_bounded_witness :
    (runFrom ⟨4, 4, 4, true, false, false⟩ false 100
        [Op.changes ⟨false, false, ChangesBody.array [⟨some 101, "d", "r", 0, 5⟩]⟩,
         Op.revFinderCb [true]]).lastSequence
      ≤ (stepP ⟨4, 4, 4, true, false, false⟩
          (runFrom ⟨4, 4, 4, true, false, false⟩ false 100
            [Op.changes ⟨false, false, ChangesBody.array [⟨some 101, "d", "r", 0, 5⟩]⟩,
             Op.revFinderCb [true]]) (Op.rev ⟨"d"⟩)).lastSequence
    ∧ (stepP ⟨4, 4, 4, true, false, false⟩
          (runFrom ⟨4, 4, 4, true, false, false⟩ false 100
            [Op.changes ⟨false, false, ChangesBody.array [⟨some 101, "d", "r", 0, 5⟩]⟩,
             Op.revFinderCb [true]]) (Op.rev ⟨"d"⟩)).lastSequence
        = (stepP ⟨4, 4, 4, true, false, false⟩
            (runFrom ⟨4, 4, 4, true, false, false⟩ false 100
              [Op.changes ⟨false, false, ChangesBody.array [⟨some 101, "d", "r", 0, 5⟩]⟩,
               Op.revFinderCb [true]]) (Op.rev ⟨"d"⟩)).missingSequences.since
    ∧ (stepP ⟨4, 4, 4, true, false, false⟩
          (runFrom ⟨4, 4, 4, true, false, false⟩ false 100
            [Op.changes ⟨false, false, ChangesBody.array [⟨some 101, "d", "r", 0, 5⟩]⟩,
             Op.revFinderCb [true]]) (Op.rev ⟨"d"⟩)).lastSequence ≤ 101 := by
  have h := c1_checkpoint_monotone_and_bounded ⟨4, 4, 4, true, false, false⟩ false 100
    [Op.changes ⟨false, false, ChangesBody.array [⟨some 101, "d", "r", 0, 5⟩]⟩,
     Op.revFinderCb [true]] (Op.rev ⟨"d"⟩)
  exact ⟨h.1, h.2.1, h.2.2 ⟨101, 5, true⟩ (by decide) rfl⟩

/-- C3 counterexample: with `MaxPendingRevs = 1`, a single `changes` message
announcing two wanted revisions drives `pendingRevMessages` to 2, above its
cap: the cap only gates the draining of the waiting-changes queue, it is not
an upper bound on the counter. -/
theorem c3_pending_cap_counterexample :
    ¬ ((runFrom ⟨1, 4, 4, true, false, false⟩ false 100
        [Op.changes ⟨false, false, ChangesBody.array
            [⟨some 101, "d1", "r1", 0, 5⟩, ⟨some 102, "d2", "r2", 0, 5⟩]⟩,
         Op.revFinderCb [true, true]]).pendingRevMessages
      ≤ (⟨1, 4, 4, true, false, false⟩ : Config).maxPendingRevs) := by
  decide

/-- C3 (amended): in every reachable state, `activeIncomingRevs` is at most
`MaxActiveIncomingRevs` and `unfinishedIncomingRevs` is at most
`MaxUnfinishedIncomingRevs`; `pendingRevMessages` is not bounded by
`MaxPendingRevs` (that cap only throttles the changes pump). -/
theorem c3_active_unfinished_caps (cfg : Config) (sd : Bool) (since : Nat)
    (ops : List Op) :
    (runFrom cfg sd since ops).activeIncomingRevs ≤ cfg.maxActiveIncomingRevs
    ∧ (runFrom cfg sd since ops).unfinishedIncomingRevs
        ≤ cfg.maxUnfinishedIncomingRevs := by
  have h := inv_runFrom cfg sd since ops
  exact ⟨h.2.2.1, h.2.2.2.1⟩

/-- C4 counterexample: with both rev caps at 1, a second `rev` message waits;
after the first rev's provisional callback (which finds `unfinished` still at
its cap) and its final completion batch (all of whose revs were provisionally
inserted, so `_revsFinished` re-invokes no pump), the message is still
waiting although both counters are below their caps. -/
theorem c4_pump_counterexample :
    (runFrom ⟨4, 1, 1, true, false, false⟩ false 100
        [Op.rev ⟨"a"⟩, Op.rev ⟨"b"⟩, Op.revProvisional,
         Op.revsFinished [⟨"a", none, true, false⟩]]).waitingRevMessages ≠ []
    ∧ (runFrom ⟨4, 1, 1, true, false, false⟩ false 100
        [Op.rev ⟨"a"⟩, Op.rev ⟨"b"⟩, Op.revProvisional,
         Op.revsFinished [⟨"a", none, true, false⟩]]).activeIncomingRevs
        < (⟨4, 1, 1, true, false, false⟩ : Config).maxActiveIncomingRevs
    ∧ (runFrom ⟨4, 1, 1, true, false, false⟩ false 100
        [Op.rev ⟨"a"⟩, Op.rev ⟨"b"⟩, Op.revProvisional,
         Op.revsFinished [⟨"a", none, true, false⟩]]).unfinishedIncomingRevs
        < (⟨4, 1, 1, true, false, false⟩ : Config).maxUnfinishedIncomingRevs := by
  refine ⟨?_, by decide, by decide⟩
  decide

/-- C4 (amended): the changes-pump half of the claim holds in every reachable
state: a message waits in `waitingChangesMessages` only while
`pendingRevMessages` has reached `MaxPendingRevs`.  (The rev-pump half fails:
`handleNoRev` re-invokes only the changes pump, and `_revsFinished` re-invokes
the rev pump only for revs that were not already provisionally handled, so a
message can wait in `waitingRevMessages` with both counters below their
caps.) -/
theorem c4_changes_queue_only_while_throttled (cfg : Config) (sd : Bool)
    (since : Nat) (ops : List Op)
    (h : (runFrom cfg sd since ops).waitingChangesMessages ≠ []) :
    cfg.maxPendingRevs ≤ (runFrom cfg sd since ops).pendingRevMessages :=
  (inv_runFrom cfg sd since ops).2.2.2.2 h

/-- Witness for the amended C4: with `MaxPendingRevs = 0` a `changes` message
stays queued and the bound holds. -/
theorem c4_changes_queue_only_while_throttled_witness :
    (runFrom ⟨0, 1, 1, false, false, false⟩ false 0
        [Op.changes ⟨false, false, ChangesBody.array []⟩]).waitingChangesMessages ≠ []
    ∧ (⟨0, 1, 1, false, false, false⟩ : Config).maxPendingRevs
        ≤ (runFrom ⟨0, 1, 1, false, false, false⟩ false 0
            [Op.changes ⟨false, false, ChangesBody.array []⟩]).pendingRevMessages := by
  refine ⟨by decide, ?_⟩
  exact c4_changes_queue_only_while_throttled ⟨0, 1, 1, false, false, false⟩ false 0
    [Op.changes ⟨false, false, ChangesBody.array []⟩] (by decide)

/-- C6: for every `norev` message, the handler decrements
`pendingRevMessages` by one, removes the message's docID from the shared
incoming-docID set, removes exactly the message's sequence from the missing
set while keeping the checkpoint equal to `since()` (so `updateLastSequence`
took effect whenever that sequence was the earliest), and sends an empty
reply unless the no-reply flag is set (its own reply is the only output when
no drained `changes` message produced one). -/
theorem c6_norev_effects (cfg : Config) (sd : Bool) (since : Nat) (ops : List Op)
    (d : String) (x : Nat) (nr : Bool) :
    (stepO cfg (runFrom cfg sd since ops) (Op.noRev ⟨d, some x, nr⟩)).1.pendingRevMessages
      = (runFrom cfg sd since ops).pendingRevMessages - 1
    ∧ (stepO cfg (runFrom cfg sd since ops) (Op.noRev ⟨d, some x, nr⟩)).1.incomingDocIDs
        = (runFrom cfg sd since ops).incomingDocIDs.erase d
    ∧ (stepO cfg (runFrom cfg sd since ops) (Op.noRev ⟨d, some x, nr⟩)).1.missingSequences.pendingSeqs
        = (runFrom cfg sd since ops).missingSequences.pendingSeqs.erase x
    ∧ (stepO cfg (runFrom cfg sd since ops) (Op.noRev ⟨d, some x, nr⟩)).1.lastSequence
        = (stepO cfg (runFrom cfg sd since ops) (Op.noRev ⟨d, some x, nr⟩)).1.missingSequences.since
    ∧ (nr = false →
        Output.replyEmpty ∈ (stepO cfg (runFrom cfg sd since ops) (Op.noRev ⟨d, some x, nr⟩)).2)
    ∧ ((runFrom cfg sd since ops).waitingChangesMessages = [] →
        (stepO cfg (runFrom cfg sd since ops) (Op.noRev ⟨d, some x, nr⟩)).2
          = if nr = true then [] else [Output.replyEmpty]) := by
  have hInv := inv_runFrom cfg sd since ops
  have hstep := inv_step cfg (runFrom cfg sd since ops) (Op.noRev ⟨d, some x, nr⟩) hInv
  obtain ⟨hwf, hlast, _, _, _⟩ := hInv
  refine ⟨?_, ?_, ?_, hstep.1.2.1, ?_, ?_⟩
  · show (handleMoreChanges cfg (noRevCore (runFrom cfg sd since ops) ⟨d, some x, nr⟩)).1.pendingRevMessages = _
    obtain ⟨⟨a, b, c, dd, e, f, g⟩, hpost⟩ :=
      handleMoreChanges_spec cfg (noRevCore (runFrom cfg sd since ops) ⟨d, some x, nr⟩)
    rw [c]
    exact (noRevCore_spec (runFrom cfg sd since ops) ⟨d, some x, nr⟩ hwf hlast).2.2.2.2.2.2.2.1
  · show (handleMoreChanges cfg (noRevCore (runFrom cfg sd since ops) ⟨d, some x, nr⟩)).1.incomingDocIDs = _
    obtain ⟨⟨a, b, c, dd, e, f, g⟩, hpost⟩ :=
      handleMoreChanges_spec cfg (noRevCore (runFrom cfg sd since ops) ⟨d, some x, nr⟩)
    rw [g]
    exact (noRevCore_spec (runFrom cfg sd since ops) ⟨d, some x, nr⟩ hwf hlast).2.2.2.2.2.2.2.2
  · show (handleMoreChanges cfg (noRevCore (runFrom cfg sd since ops) ⟨d, some x, nr⟩)).1.missingSequences.pendingSeqs = _
    obtain ⟨⟨a, b, c, dd, e, f, g⟩, hpost⟩ :=
      handleMoreChanges_spec cfg (noRevCore (runFrom cfg sd since ops) ⟨d, some x, nr⟩)
    rw [a]
    have hmr : (noRevCore (runFrom cfg sd since ops) ⟨d, some x, nr⟩).missingSequences
        = ((runFrom cfg sd since ops).missingSequences.remove x).1 :=
      completedSequence_missing_remove
        { runFrom cfg sd since ops with
          incomingDocIDs := (runFrom cfg sd since ops).incomingDocIDs.erase d,
          pendingRevMessages := (runFrom cfg sd since ops).pendingRevMessages - 1 }
        x true
    rw [hmr]
    exact MissingSequenceSet.remove_pendingSeqs (runFrom cfg sd since ops).missingSequences x hwf
  · intro hnr
    subst hnr
    exact List.mem_append_right _ (List.mem_singleton_self _)
  · intro hw
    have hwq : (noRevCore (runFrom cfg sd since ops) ⟨d, some x, nr⟩).waitingChangesMessages = [] := by
      rw [(noRevCore_spec (runFrom cfg sd since ops) ⟨d, some x, nr⟩ hwf hlast).2.2.2.2.2.1]
      exact hw
    show (handleMoreChanges cfg (noRevCore (runFrom cfg sd since ops) ⟨d, some x, nr⟩)).2
        ++ (if nr = true then [] else [Output.replyEmpty]) = _
    have hdrain : (handleMoreChanges cfg
        (noRevCore (runFrom cfg sd since ops) ⟨d, some x, nr⟩)).2 = [] := by
      show (handleMoreChangesAux cfg
        (noRevCore (runFrom cfg sd since ops) ⟨d, some x, nr⟩).waitingChangesMessages
        (noRevCore (runFrom cfg sd since ops) ⟨d, some x, nr⟩)).2 = []
      rw [hwq]
      rfl
    rw [hdrain, List.nil_append]

/-- Witness for C6 on a concrete trace: sequence 101 is announced and
requested, then refused by a `norev` carrying sequence 101 and no no-reply
flag. -/
theorem c6_norev_effects_witness :
    (stepO ⟨4, 4, 4, true, false, false⟩
        (runFrom ⟨4, 4, 4, true, false, false⟩ false 100
          [Op.changes ⟨false, false, ChangesBody.array [⟨some 101, "d", "r", 0, 5⟩]⟩,
           Op.revFinderCb [true]])
        (Op.noRev ⟨"d", some 101, false⟩)).1.pendingRevMessages
      = (runFrom ⟨4, 4, 4, true, false, false⟩ false 100
          [Op.changes ⟨false, false, ChangesBody.array [⟨some 101, "d", "r", 0, 5⟩]⟩,
           Op.revFinderCb [true]]).pendingRevMessages - 1
    ∧ (stepO ⟨4, 4, 4, true, false, false⟩
        (runFrom ⟨4, 4, 4, true, false, false⟩ false 100
          [Op.changes ⟨false, false, ChangesBody.array [⟨some 101, "d", "r", 0, 5⟩]⟩,
           Op.revFinderCb [true]])
        (Op.noRev ⟨"d", some 101, false⟩)).1.missingSequences.pendingSeqs
      = (runFrom ⟨4, 4, 4, true, false, false⟩ false 100
          [Op.changes ⟨false, false, ChangesBody.array [⟨some 101, "d", "r", 0, 5⟩]⟩,
           Op.revFinderCb [true]]).missingSequences.pendingSeqs.erase 101
    ∧ (stepO ⟨4, 4, 4, true, false, false⟩
          (runFrom ⟨4, 4, 4, true, false, false⟩ false 100
            [Op.changes ⟨false, false, ChangesBody.array [⟨some 101, "d", "r", 0, 5⟩]⟩,
             Op.revFinderCb [true]])
          (Op.noRev ⟨"d", some 101, false⟩)).2
        = (if (false : Bool) = true then [] else [Output.replyEmpty]) := by
  have h := c6_norev_effects ⟨4, 4, 4, true, false, false⟩ false 100
    [Op.changes ⟨false, false, ChangesBody.array [⟨some 101, "d", "r", 0, 5⟩]⟩,
     Op.revFinderCb [true]] "d" 101 false
  exact ⟨h.1, h.2.2.1, h.2.2.2.2.2 (by decide)⟩

theorem intercalate_go_cons (acc a : String) (l : List String) :
    String.intercalate.go acc "," (a :: l)
      = String.intercalate.go (acc ++ "," ++ a) "," l := rfl

theorem joinChannels_go (cs : List String) :
    ∀ (acc : String),
      (cs.foldl
        (fun (a : String × Bool) name =>
          if name = "" then a
          else (a.1 ++ (if a.2 then "," else "") ++ name, true)) (acc, true)).1
      = String.intercalate.go acc "," (cs.filter (fun s => s ≠ "")) := by
  induction cs with
  | nil => intro acc; rfl
  | cons c rest ih =>
    intro acc
    by_cases hc : c = ""
    · simp only [List.foldl_cons, List.filter_cons]
      simp [hc]
      simpa using ih acc
    · simp only [List.foldl_cons, List.filter_cons]
      simp [hc]
      rw [intercalate_go_cons]
      simpa using ih (acc ++ "," ++ c)

/-- The channel-name loop of `_start` computes the comma-join of the
non-empty channel names. -/
theorem joinChannels_eq (cs : List String) :
    joinChannels cs = String.intercalate "," (cs.filter (fun s => s ≠ "")) := by
  induction cs with
  | nil => rfl
  | cons c rest ih =>
    unfold joinChannels at ih ⊢
    by_cases hc : c = ""
    · simp only [List.foldl_cons]
      simp [hc]
      simpa using ih
    · simp only [List.foldl_cons]
      simp [hc]
      have h2 : (rest.foldl
          (fun (a : String × Bool) name =>
            if name = "" then a
            else (a.1 ++ (if a.2 then "," else "") ++ name, true)) (c, true)).1
          = String.intercalate.go c "," (rest.filter (fun s => !decide (s = ""))) := by
        simpa using joinChannels_go rest c
      exact h2

/-- C9: whenever the channels option is a non-empty list, the outgoing
`subChanges` request carries `filter = "sync_gateway/bychannel"` and
`channels` equal to the comma-join of the non-empty channel names, and the
configured custom filter and filter params are ignored (the request is the
same as with no custom filter configured); the custom filter and its params
are sent only when channels is absent. -/
theorem c9_channels_override_filter (opts : Options) (sd : Bool) (ls : String)
    (bs : Nat) (l : List String) (hch : opts.channels = some l) (hne : l ≠ []) :
    ("filter", "sync_gateway/bychannel") ∈ buildSubChanges opts sd ls bs
    ∧ ("channels", String.intercalate "," (l.filter (fun s => s ≠ "")))
        ∈ buildSubChanges opts sd ls bs
    ∧ buildSubChanges opts sd ls bs
        = buildSubChanges { opts with filter := none, filterParams := [] } sd ls bs
    ∧ (∀ (opts2 : Options) (f : String), opts2.channels = none →
        opts2.filter = some f →
        ("filter", f) ∈ buildSubChanges opts2 sd ls bs) := by
  refine ⟨?_, ?_, ?_, ?_⟩
  · simp [buildSubChanges, hch, List.mem_append]
  · rw [← joinChannels_eq]
    simp [buildSubChanges, hch, List.mem_append]
  · simp [buildSubChanges, hch]
  · intro o2 f h1 h2
    simp [buildSubChanges, h1, h2, List.mem_append]

/-- Witness for C9 at a concrete configuration with channels
`["a", "", "b"]` and a custom filter that must be ignored. -/
theorem c9_channels_override_filter_witness :
    (⟨false, some ["a", "", "b"], some "myfilter", [("k", "v")], none⟩ : Options).channels
      = some ["a", "", "b"]
    ∧ (["a", "", "b"] : List String) ≠ []
    ∧ ("filter", "sync_gateway/bychannel")
        ∈ buildSubChanges ⟨false, some ["a", "", "b"], some "myfilter", [("k", "v")], none⟩
            false "100" 200
    ∧ ("channels", String.intercalate "," ((["a", "", "b"] : List String).filter (fun s => s ≠ "")))
        ∈ buildSubChanges ⟨false, some ["a", "", "b"], some "myfilter", [("k", "v")], none⟩
            false "100" 200
    ∧ buildSubChanges ⟨false, some ["a", "", "b"], some "myfilter", [("k", "v")], none⟩
          false "100" 200
        = buildSubChanges ⟨false, some ["a", "", "b"], none, [], none⟩ false "100" 200
    ∧ ("filter", "myfilter")
        ∈ buildSubChanges ⟨false, none, some "myfilter", [("k", "v")], none⟩
            false "100" 200 := by
  have h := c9_channels_override_filter
    ⟨false, some ["a", "", "b"], some "myfilter", [("k", "v")], none⟩
    false "100" 200 ["a", "", "b"] rfl (by decide)
  exact ⟨rfl, by decide, h.1, h.2.1, h.2.2.1,
         h.2.2.2 ⟨false, none, some "myfilter", [("k", "v")], none⟩ "myfilter" rfl rfl⟩

end Puller
